import Mathlib

/-!
Verification development for the cigar_pricing_rating scrapers.

The Python sources are shallowly embedded over `List Char` (a Python `str`
is its character sequence; all inputs of interest are ASCII).  Python
`float` values are modelled as exact rationals together with the special
values `nan`, `inf` and `-inf` (no claim in scope depends on binary
rounding, only on parsing and sign behaviour).  Fallible conversions
return `Option`; a raised-and-caught exception is `none`.
-/

namespace Cigar

/-- Python whitespace characters stripped by `str.strip()` / `str.split()`. -/
def isWSChar (c : Char) : Bool :=
  c = ' ' || c = '\t' || c = '\n' || c = '\r' || c = '\x0b' || c = '\x0c'

/-- `str.strip()` with no argument: drop whitespace from both ends. -/
def pyStrip (l : List Char) : List Char :=
  ((l.dropWhile isWSChar).reverse.dropWhile isWSChar).reverse

/-- `str.strip(cs)`: drop characters of `cs` from both ends. -/
def pyStripSet (cs : List Char) (l : List Char) : List Char :=
  ((l.dropWhile (cs.contains ·)).reverse.dropWhile (cs.contains ·)).reverse

/-- Worker for `wsplit`: `acc` is the current token, reversed. -/
def wsplitAux : List Char → List Char → List (List Char)
  | [], acc => if acc.isEmpty then [] else [acc.reverse]
  | c :: rest, acc =>
    if isWSChar c then
      if acc.isEmpty then wsplitAux rest []
      else acc.reverse :: wsplitAux rest []
    else wsplitAux rest (c :: acc)

/-- `str.split()` with no argument: split on whitespace runs, dropping
empty pieces. -/
def wsplit (l : List Char) : List (List Char) := wsplitAux l []

/-- `str.split(sep, 1)` restricted to a one-character separator: split at
the first occurrence, `none` when the separator does not occur. -/
def splitFirst (sep : Char) : List Char → Option (List Char × List Char)
  | [] => none
  | c :: rest =>
    if c = sep then some ([], rest)
    else (splitFirst sep rest).map (fun p => (c :: p.1, p.2))

/-- Python substring containment `sub in l`. -/
def containsSub (sub l : List Char) : Bool :=
  l.tails.any (fun t => sub.isPrefixOf t)

/-- `str.lower()` (ASCII). -/
def lowerStr (l : List Char) : List Char := l.map Char.toLower

/-- Numeric value of a list of decimal digit characters. -/
def digitsToNat (ds : List Char) : ℕ :=
  ds.foldl (fun a c => 10 * a + (c.toNat - 48)) 0

/-- `str.isdigit()` for ASCII text: nonempty and all decimal digits. -/
def pyIsDigit (l : List Char) : Bool :=
  !l.isEmpty && l.all Char.isDigit

/-- Python `int(str)`: optional sign and a nonempty digit string, with
surrounding whitespace allowed; anything else raises (here: `none`). -/
def pyInt (l : List Char) : Option ℤ :=
  let t := pyStrip l
  if t.head? = some '+' then
    if pyIsDigit t.tail then some (digitsToNat t.tail) else none
  else if t.head? = some '-' then
    if pyIsDigit t.tail then some (-(digitsToNat t.tail : ℤ)) else none
  else if pyIsDigit t then some (digitsToNat t) else none

/-- A Python `float` value: an exact finite rational or one of the IEEE
special values reachable through `float(text)`. -/
inductive PyFloat where
  | finite (q : ℚ)
  | nan
  | inf
  | ninf
deriving DecidableEq, Repr

/-- Python truthiness of a float: `0.0` is falsy, everything else
(including `nan` and the infinities) is truthy. -/
def PyFloat.truthy : PyFloat → Bool
  | .finite q => q ≠ 0
  | _ => true

/-- Addition of an exact rational to a `PyFloat` (used for the
whole-plus-fraction length computation). -/
def PyFloat.addQ : PyFloat → ℚ → PyFloat
  | .finite a, q => .finite (a + q)
  | .nan, _ => .nan
  | .inf, _ => .inf
  | .ninf, _ => .ninf

/-- Unsigned numeric body of a Python float literal:
`digits [. digits] [(e|E) [sign] digits]`, at least one digit in the
mantissa.  Returns the exact rational value. -/
def parseFloatBody (l : List Char) : Option ℚ :=
  let intPart := l.takeWhile Char.isDigit
  let rest1 := l.dropWhile Char.isDigit
  let (fracPart, rest2) :=
    match rest1 with
    | '.' :: r => (r.takeWhile Char.isDigit, r.dropWhile Char.isDigit)
    | r => ([], r)
  if intPart.isEmpty && fracPart.isEmpty then none
  else
    let mant : ℚ := (digitsToNat intPart : ℚ) +
      (digitsToNat fracPart : ℚ) / ((10 : ℚ) ^ fracPart.length)
    match rest2 with
    | [] => some mant
    | e :: r3 =>
      if e = 'e' ∨ e = 'E' then
        let (sgn, ds) :=
          match r3 with
          | '+' :: ds => ((1 : ℤ), ds)
          | '-' :: ds => ((-1 : ℤ), ds)
          | ds => ((1 : ℤ), ds)
        if pyIsDigit ds then some (mant * (10 : ℚ) ^ (sgn * (digitsToNat ds : ℤ)))
        else none
      else none

/-- Python `float(str)`: optional sign, then either a decimal literal or
one of the case-insensitive special words `inf`, `infinity`, `nan`.
Surrounding whitespace is allowed.  Unparseable text raises (here:
`none`).  (Digit-group underscores are not modelled.) -/
def pyFloat (l : List Char) : Option PyFloat :=
  let t := pyStrip l
  let neg : Bool := t.head? = some '-'
  let body := if t.head? = some '+' ∨ t.head? = some '-' then t.tail else t
  let low := lowerStr body
  if low = "inf".toList ∨ low = "infinity".toList then
    some (if neg then .ninf else .inf)
  else if low = "nan".toList then some .nan
  else
    (parseFloatBody body).map
      (fun q => .finite (if neg then -q else q))

/-! ## famous_smoke_scraper.py -/

/-- `safe_decimal` (famous_smoke_scraper.py lines 29-37): `float(value)`
or `None` on failure; a `None` input stays `None`. -/
def safeDecimal (value : Option (List Char)) : Option PyFloat :=
  value.bind pyFloat

/-- `safe_int` (famous_smoke_scraper.py lines 39-46): `int(value)` or
`None` on failure; a `None` input stays `None`. -/
def safeInt (value : Option (List Char)) : Option ℤ :=
  value.bind pyInt

/-- `safe_str` (famous_smoke_scraper.py lines 49-54): stripped string,
or `None` when the result is empty. -/
def safeStr (value : Option (List Char)) : Option (List Char) :=
  match value with
  | none => none
  | some s => let t := pyStrip s; if t.isEmpty then none else some t

/-- `parse_quantity_packaging` (famous_smoke_scraper.py lines 57-71):
first whitespace-separated all-digit token, as an integer. -/
def parseQuantityPackaging (text : Option (List Char)) : Option ℤ :=
  match text with
  | none => none
  | some t =>
    if t.isEmpty then none
    else ((wsplit t).find? pyIsDigit).map (fun p => (digitsToNat p : ℤ))

/-- The quantity-routing rule of `scrape_product_details`
(famous_smoke_scraper.py lines 230-234): the extracted number goes to
`bundle_qty` when the packaging label contains "bundle", to `box_qty`
when it contains "box".  Returns `(bundle_qty, box_qty)`. -/
def routeQuantityPackaging (qp : Option (List Char)) : Option ℤ × Option ℤ :=
  let qty := parseQuantityPackaging qp
  match qp with
  | none => (none, none)
  | some t =>
    (if containsSub "bundle".toList (lowerStr t) then qty else none,
     if containsSub "box".toList (lowerStr t) then qty else none)

/-- The fraction table of `parse_size.to_float_length`
(famous_smoke_scraper.py line 117), with the `.get(frac, 0.0)` default. -/
def famousFracMap (f : List Char) : ℚ :=
  if f = "1/4".toList then 1/4
  else if f = "1/2".toList then 1/2
  else if f = "3/4".toList then 3/4
  else 0

/-- Python `(base or 0)` on an optional float (famous_smoke_scraper.py
line 119): `None` and `0.0` give `0`, anything else passes through. -/
def orZeroFloat (o : Option PyFloat) : PyFloat :=
  match o with
  | none => .finite 0
  | some v => if v.truthy then v else .finite 0

/-- `parse_size.to_float_length` (famous_smoke_scraper.py lines 111-120). -/
def toFloatLength (part : List Char) : Option PyFloat :=
  match wsplit part with
  | [a] => pyFloat a
  | [a, b] => some ((orZeroFloat (pyFloat a)).addQ (famousFracMap b))
  | _ => none

/-- `parse_size` (famous_smoke_scraper.py lines 97-125): split at the
first lowercase `x` into length and ring-gauge parts. -/
def famousParseSize (sizeText : List Char) : Option PyFloat × Option ℤ :=
  if sizeText.isEmpty || !containsSub "x".toList sizeText then (none, none)
  else
    match splitFirst 'x' (pyStrip sizeText) with
    | none => (none, none)
    | some (lp, rp) => (toFloatLength (pyStrip lp), pyInt (pyStrip rp))

/-- `WRAPPER_COLORS` (famous_smoke_scraper.py lines 132-136). -/
def WRAPPER_COLORS : List (List Char) :=
  ["natural".toList, "maduro".toList, "oscuro".toList, "claro".toList,
   "double claro".toList, "ems".toList, "sun grown".toList,
   "sungrown".toList, "colorado".toList, "colorado claro".toList,
   "colorado maduro".toList]

/-- `WRAPPER_ORIGINS` (famous_smoke_scraper.py lines 138-142). -/
def WRAPPER_ORIGINS : List (List Char) :=
  ["usa".toList, "united states".toList, "honduras".toList,
   "nicaragua".toList, "dominican".toList, "dominican republic".toList,
   "mexico".toList, "ecuador".toList, "brazil".toList, "cameroon".toList,
   "panama".toList, "costa rica".toList]

/-- Stable insertion of an element into a longest-first sorted list
(model of Python's stable `sorted(key=len, reverse=True)`). -/
def insertLenDesc (x : List Char) : List (List Char) → List (List Char)
  | [] => [x]
  | y :: ys => if x.length < y.length then y :: insertLenDesc x ys
               else x :: y :: ys

/-- `sorted(v, key=len, reverse=True)`: stable, longest entries first. -/
def sortLenDesc (v : List (List Char)) : List (List Char) :=
  v.foldr insertLenDesc []

/-- `str.title()` (ASCII): uppercase each letter that follows a
non-letter, lowercase the other letters. -/
def pyTitleAux : Bool → List Char → List Char
  | _, [] => []
  | prevAlpha, c :: rest =>
    if c.isAlpha then
      (if prevAlpha then c.toLower else c.toUpper) :: pyTitleAux true rest
    else c :: pyTitleAux false rest

/-- `str.title()` over a character list. -/
def pyTitle (l : List Char) : List Char := pyTitleAux false l

/-- `str.replace(sub, "", 1)` for a nonempty pattern: remove the first
occurrence, if any. -/
def removeFirst (sub : List Char) : List Char → List Char
  | [] => []
  | c :: rest =>
    if sub.isPrefixOf (c :: rest) then (c :: rest).drop sub.length
    else c :: removeFirst sub rest

/-- `str.replace("()", "")`: remove every occurrence of the two-character
pattern, scanning left to right. -/
def removeParenPairs : List Char → List Char
  | '(' :: ')' :: rest => removeParenPairs rest
  | c :: rest => c :: removeParenPairs rest
  | [] => []

/-- The origin canonicalisation of `smart_parse_wrapper`
(famous_smoke_scraper.py lines 165-170). -/
def canonOrigin (o : List Char) : List Char :=
  if o = "usa".toList ∨ o = "united states".toList then "USA".toList
  else if o = "dominican".toList then "Dominican Republic".toList
  else pyTitle o

/-- `smart_parse_wrapper` (famous_smoke_scraper.py lines 145-182):
returns `(color, leaf, origin)`. -/
def smartParseWrapper (combined : List Char) :
    Option (List Char) × Option (List Char) × Option (List Char) :=
  if combined.isEmpty then (none, none, none)
  else
    let text := lowerStr combined
    let color := ((sortLenDesc WRAPPER_COLORS).find?
      (fun c => containsSub c text)).map pyTitle
    let origin := ((sortLenDesc WRAPPER_ORIGINS).find?
      (fun o => containsSub o text)).map canonOrigin
    let leaf1 := match color with
      | some c => removeFirst c combined
      | none => combined
    let leaf2 := match origin with
      | some o => removeFirst o leaf1
      | none => leaf1
    let leaf := safeStr (some (pyStripSet " -,".toList (removeParenPairs leaf2)))
    (color, leaf, origin)

/-! ## gotham_cigars_scraper.py -/

/-- Greedy match of the tail `\s*\d*/?\d*` of Gotham's length regex,
starting right after the leading digit run. -/
def gothamLenTail (l : List Char) : List Char :=
  let w := l.takeWhile isWSChar
  let r1 := l.dropWhile isWSChar
  let d2 := r1.takeWhile Char.isDigit
  let r2 := r1.dropWhile Char.isDigit
  match r2 with
  | '/' :: r3 => w ++ d2 ++ '/' :: r3.takeWhile Char.isDigit
  | _ => w ++ d2

/-- `re.search(r"(\d+\s*\d*/?\d*)", text)` (gotham_cigars_scraper.py
line 276): leftmost match, each quantifier greedy (the optional parts
never force backtracking).  Returns the captured group. -/
def gothamLenSearch : List Char → Option (List Char)
  | [] => none
  | c :: rest =>
    if c.isDigit then
      let d1 := (c :: rest).takeWhile Char.isDigit
      let r1 := (c :: rest).dropWhile Char.isDigit
      some (d1 ++ gothamLenTail r1)
    else gothamLenSearch rest

/-- The length computation of `parse_specs_table`
(gotham_cigars_scraper.py lines 275-288): on a slash the matched group
(spaces removed) is split and evaluated as `float(parts[0]) /
float(parts[1])` inside a try/except (division by zero raises);
otherwise `safe_float` of the digits. -/
def gothamSizeLength (sizeText : List Char) : Option ℚ :=
  match gothamLenSearch sizeText with
  | none => none
  | some g =>
    let frac := g.filter (fun c => c ≠ ' ')
    if frac.contains '/' then
      match splitFirst '/' frac with
      | none => none
      | some (p0, p1rest) =>
        let p1 := (p1rest.takeWhile (fun c => c ≠ '/'))
        match pyFloat p0, pyFloat p1 with
        | some (.finite n), some (.finite d) =>
          if d = 0 then none else some (n / d)
        | _, _ => none
    else
      match pyFloat frac with
      | some (.finite q) => some q
      | _ => none

/-- `re.search(r"[xX]\s*(\d+)", text)` (gotham_cigars_scraper.py
line 290): first `x`/`X` that is followed, after whitespace, by a
digit; returns the digit run as an integer. -/
def gothamRingGauge : List Char → Option ℤ
  | [] => none
  | c :: rest =>
    if c = 'x' ∨ c = 'X' then
      let ds := (rest.dropWhile isWSChar).takeWhile Char.isDigit
      if ds.isEmpty then gothamRingGauge rest
      else some (digitsToNat ds)
    else gothamRingGauge rest

/-- One matched group of `re.findall(r"\$\s*([\d,]+\.\d{2})", t)`:
after a `$` and whitespace, a nonempty run of digits/commas, a dot and
exactly two digits.  Returns the group and the rest of the input. -/
def gothamPriceAt (l : List Char) : Option (List Char × List Char) :=
  let r1 := l.dropWhile isWSChar
  let num := r1.takeWhile (fun c => c.isDigit || c = ',')
  let r2 := r1.dropWhile (fun c => c.isDigit || c = ',')
  if num.isEmpty then none
  else
    match r2 with
    | '.' :: a :: b :: rest =>
      if a.isDigit && b.isDigit then some (num ++ ['.', a, b], rest)
      else none
    | _ => none

/-- Worker for `gothamFindPrices`; the fuel only bounds the recursion
(every step consumes at least one character, so `l.length` suffices). -/
def gothamFindPricesAux : ℕ → List Char → List (List Char)
  | 0, _ => []
  | _, [] => []
  | fuel + 1, c :: rest =>
    if c = '$' then
      match gothamPriceAt rest with
      | some (g, after) => g :: gothamFindPricesAux fuel after
      | none => gothamFindPricesAux fuel rest
    else gothamFindPricesAux fuel rest

/-- `re.findall(r"\$\s*([\d,]+\.\d{2})", t)` (gotham_cigars_scraper.py
line 190): all non-overlapping matches, scanning left to right.

The regex requires a greedy `[\d,]+` followed by `\.\d{2}`; because the
run is maximal and `.` is not in the class, no backtracking can occur. -/
def gothamFindPrices (l : List Char) : List (List Char) :=
  gothamFindPricesAux l.length l

/-- The low-price extraction of `parse_category_card`
(gotham_cigars_scraper.py lines 187-194): first `$`-prefixed
two-decimal amount, commas stripped before `float`. -/
def gothamLowPrice (priceText : List Char) : Option PyFloat :=
  match gothamFindPrices priceText with
  | [] => none
  | g :: _ => pyFloat (g.filter (fun c => c ≠ ','))

/-! ## holts_cigar_scraper.py / atlantic_cigar_scraper.py -/

/-- `safe_float` (atlantic_cigar_scraper.py lines 53-57,
holts_cigar_scraper.py lines 52-56): `float(v)` or `None`. -/
def safeFloat (v : List Char) : Option PyFloat := pyFloat v

/-- One match of `re.findall(r"\d+\.\d+", t)`: a maximal digit run, a
dot and a nonempty digit run.  Returns the match and the rest. -/
def twoPartNumAt (l : List Char) : Option (List Char × List Char) :=
  let d1 := l.takeWhile Char.isDigit
  let r1 := l.dropWhile Char.isDigit
  if d1.isEmpty then none
  else
    match r1 with
    | '.' :: r2 =>
      let d2 := r2.takeWhile Char.isDigit
      if d2.isEmpty then none
      else some (d1 ++ '.' :: d2, r2.dropWhile Char.isDigit)
    | _ => none

/-- Worker for `findDecimalNums`; the fuel only bounds the recursion
(every step consumes at least one character, so `l.length` suffices). -/
def findDecimalNumsAux : ℕ → List Char → List (List Char)
  | 0, _ => []
  | _, [] => []
  | fuel + 1, c :: rest =>
    if c.isDigit then
      match twoPartNumAt (c :: rest) with
      | some (g, after) => g :: findDecimalNumsAux fuel after
      | none => findDecimalNumsAux fuel (rest.dropWhile Char.isDigit)
    else findDecimalNumsAux fuel rest

/-- `re.findall(r"\d+\.\d+", t)` (holts_cigar_scraper.py line 70,
atlantic_cigar_scraper.py lines 70 and 78): all non-overlapping
matches, left to right, greedy digit runs. -/
def findDecimalNums (l : List Char) : List (List Char) :=
  findDecimalNumsAux l.length l

/-- `parse_price_range` (holts_cigar_scraper.py lines 63-73, identical
in atlantic_cigar_scraper.py lines 67-73): strip commas, take the first
`\d+\.\d+` match as a float. -/
def parsePriceRange (priceText : Option (List Char)) : Option PyFloat :=
  match priceText with
  | none => none
  | some t =>
    if t.isEmpty then none
    else
      match findDecimalNums (t.filter (fun c => c ≠ ',')) with
      | [] => none
      | n :: _ => safeFloat n

/-! ## Field reconciliation

The scrapers reconcile candidates in two ways: Python `a or b` (first
truthy value: `None`, `0`, `0.0` and `""` all fall through), used in
`cigarbid_scraper.py` lines 424-432 and `cigars_daily_scraper.py` lines
296-302, and an explicit `is not None` test, used in
`cigars_daily_scraper.py` lines 304-305. -/

/-- Python `a or b` on optional strings (`cigars_daily_scraper.py` line
296, `cigarbid_scraper.py` line 424): an empty string also falls
through to `b`. -/
def pyOrStr (a b : Option (List Char)) : Option (List Char) :=
  match a with
  | none => b
  | some s => if s.isEmpty then b else some s

/-- Python `a or b` on optional rationals (`cigarbid_scraper.py` lines
429-432): a present `0` also falls through to `b`. -/
def pyOrQ (a b : Option ℚ) : Option ℚ :=
  match a with
  | none => b
  | some x => if x = 0 then b else some x

/-- The `x if x is not None else y` reconciliation of
`cigars_daily_scraper.py` lines 304-305: first present candidate. -/
def noneOr (a b : Option ℚ) : Option ℚ :=
  match a with
  | some x => some x
  | none => b

/-- Fold of `pyOrStr` over an ordered candidate list (the shape of the
`a or b or c` chains in the sources). -/
def reconcileStr (cands : List (Option (List Char))) : Option (List Char) :=
  cands.foldr (fun a acc => pyOrStr a acc) none

/-! ## Traversal models

The traversal loops perform network fetches; they are embedded by
passing the fetch outcomes in as data.  A detail oracle
`ok : α → Bool` says whether the detail fetch of an item succeeds, and
a listing script `List (Option (List α))` gives one entry per listing
page, `none` meaning the page fetch raised.  `α` is the item type;
records are kept abstract as the items that produced them. -/

/-- Per-item detail loop of `main` (famous_smoke_scraper.py lines
419-455): each item's detail scrape runs inside `try/except`; a raising
item (`ok i = false`) is only logged, producing no record.  Returns
`(emitted items, logged failures)`. -/
def famousProcessItems (items : List α) (ok : α → Bool) : List α × ℕ :=
  match items with
  | [] => ([], 0)
  | i :: rest =>
    let (recs, fails) := famousProcessItems rest ok
    if ok i then (i :: recs, fails) else (recs, fails + 1)

/-- The page loop of `main` (famous_smoke_scraper.py lines 415-460):
pages are walked via `next_page_url` and every page's items go through
the per-item loop. -/
def famousRunPages (pages : List (List α)) (ok : α → Bool) : List α × ℕ :=
  match pages with
  | [] => ([], 0)
  | pg :: rest =>
    let (r1, f1) := famousProcessItems pg ok
    let (r2, f2) := famousRunPages rest ok
    (r1 ++ r2, f1 + f2)

/-- Per-item loop of `scrape_strength_category`
(atlantic_cigar_scraper.py lines 296-358): `parse_pdp` (lines 159-169)
catches its own fetch error, logs it, and returns an all-`None` detail
dict, so a record is still built and saved for every item.  An item is
paired with `false` when its detail fetch failed (its detail fields are
all absent); the count is the logged failures. -/
def atlanticProcessItems (items : List α) (ok : α → Bool) :
    List (α × Bool) × ℕ :=
  match items with
  | [] => ([], 0)
  | i :: rest =>
    let (recs, fails) := atlanticProcessItems rest ok
    if ok i then ((i, true) :: recs, fails)
    else ((i, false) :: recs, fails + 1)

/-- Listing-collection loop of `run_scraper`
(jrcigars_medium_to_full_scraper.py lines 295-319): pages are fetched in
order; an empty page stops the loop before extending, a page shorter
than `sz` (`page_size`, 60 in the source) stops it after extending.
The script lists successive page results. -/
def jrCollect (sz : ℕ) : List (List α) → List α
  | [] => []
  | pg :: rest =>
    if pg.isEmpty then []
    else if pg.length < sz then pg
    else pg ++ jrCollect sz rest

/-- Page loop of `scrape_strength_category` (atlantic_cigar_scraper.py
lines 286-292 and 360): pages are fetched until one has no product
cards.  A `none` page models an uncaught `fetch_soup` exception: the
loop aborts and the exception escapes (second component `false`). -/
def atlanticCategory : List (Option (List α)) → List α × Bool
  | [] => ([], true)
  | none :: _ => ([], false)
  | some pg :: rest =>
    if pg.isEmpty then ([], true)
    else
      let (e, okRest) := atlanticCategory rest
      (pg ++ e, okRest)

/-- `run_scraper` (atlantic_cigar_scraper.py lines 369-377): categories
run in order with no exception handling, so a category whose listing
fetch raised aborts the whole run. -/
def atlanticRun : List (List (Option (List α))) → List α × Bool
  | [] => ([], true)
  | src :: rest =>
    let (e, ok) := atlanticCategory src
    if ok then
      let (e2, ok2) := atlanticRun rest
      (e ++ e2, ok2)
    else (e, false)

/-- `iterate_category_pages` (gotham_cigars_scraper.py lines 145-166):
the page fetch sits inside `try/except`; a raising fetch (`none`) or an
empty page just breaks that category's loop.  Returns the yielded cards
and the number of logged category-fetch errors (0 or 1). -/
def gothamCategory : List (Option (List α)) → List α × ℕ
  | [] => ([], 0)
  | none :: _ => ([], 1)
  | some pg :: rest =>
    if pg.isEmpty then ([], 0)
    else
      let (e, n) := gothamCategory rest
      (pg ++ e, n)

/-- `run_scraper` (gotham_cigars_scraper.py lines 452-460): every
strength category is traversed; a category fetch failure never escapes
`iterate_category_pages`, so later categories are unaffected. -/
def gothamRun (srcs : List (List (Option (List α)))) : List α × ℕ :=
  (( srcs.map (fun s => (gothamCategory s).1)).flatten,
   (srcs.map (fun s => (gothamCategory s).2)).sum)

/-! ## Supporting lemmas -/

theorem digit_toLower {c : Char} (h : c.isDigit = true) : c.toLower = c := by
  simp [Char.isDigit] at h
  have h2 : c.toNat ≤ 57 := h.2
  simp [Char.toLower]
  omega

theorem digit_not_ws {c : Char} (h : c.isDigit = true) : isWSChar c = false := by
  simp [Char.isDigit] at h
  have h1 : 48 ≤ c.toNat := h.1
  simp only [isWSChar]
  have hne : ∀ d : Char, d.toNat < 48 → ¬(c = d) := by
    intro d hd he
    rw [he] at h1
    omega
  simp [hne ' ' (by decide), hne '\t' (by decide), hne '\n' (by decide),
    hne '\r' (by decide), hne '\x0b' (by decide), hne '\x0c' (by decide)]

theorem lowerStr_digits {l : List Char} (h : ∀ c ∈ l, c.isDigit = true) :
    lowerStr l = l := by
  induction l with
  | nil => rfl
  | cons c rest ih =>
    simp only [lowerStr, List.map_cons]
    rw [digit_toLower (h c (by simp))]
    have := ih (fun c hc => h c (by simp [hc]))
    simp only [lowerStr] at this
    rw [this]

theorem dropWhile_cons_false {p : Char → Bool} {c : Char} {l : List Char}
    (h : p c = false) : (c :: l).dropWhile p = c :: l := by
  simp [List.dropWhile_cons, h]

theorem dropWhile_eq_self_of_forall {p : Char → Bool} {l : List Char}
    (h : ∀ c ∈ l, p c = false) : l.dropWhile p = l := by
  cases l with
  | nil => rfl
  | cons c rest => exact dropWhile_cons_false (h c (by simp))

theorem pyStrip_of_parts {l : List Char}
    (h1 : l.dropWhile isWSChar = l)
    (h2 : l.reverse.dropWhile isWSChar = l.reverse) : pyStrip l = l := by
  simp [pyStrip, h1, h2]

/-- Stripping a list whose first and last characters are digits is the
identity. -/
theorem pyStrip_digit_ends {a b : Char} {m : List Char}
    (ha : a.isDigit = true) (hb : b.isDigit = true) :
    pyStrip (a :: m ++ [b]) = a :: m ++ [b] := by
  apply pyStrip_of_parts
  · exact dropWhile_cons_false (digit_not_ws ha)
  · have : (a :: m ++ [b]).reverse = b :: (m.reverse ++ [a]) := by simp
    rw [this, dropWhile_cons_false (digit_not_ws hb), ← this]

theorem pyStrip_all_digits {l : List Char}
    (h : ∀ c ∈ l, c.isDigit = true) : pyStrip l = l := by
  apply pyStrip_of_parts
  · exact dropWhile_eq_self_of_forall (fun c hc => digit_not_ws (h c hc))
  · exact dropWhile_eq_self_of_forall
      (fun c hc => digit_not_ws (h c (by simp at hc; exact hc)))

theorem splitFirst_eq {c : Char} {a b : List Char} (h : ∀ x ∈ a, x ≠ c) :
    splitFirst c (a ++ c :: b) = some (a, b) := by
  induction a with
  | nil => simp [splitFirst]
  | cons x a' ih =>
    have hx : x ≠ c := h x (by simp)
    have ih' := ih (fun y hy => h y (by simp [hy]))
    simp [splitFirst, if_neg hx, ih']

theorem containsSub_single {c : Char} (a b : List Char) :
    containsSub [c] (a ++ c :: b) = true := by
  simp only [containsSub, List.any_eq_true]
  refine ⟨c :: b, ?_, by simp [List.isPrefixOf]⟩
  rw [List.mem_tails]
  exact ⟨a, rfl⟩

theorem wsplitAux_token {A : List Char} (h : ∀ c ∈ A, isWSChar c = false) :
    ∀ l acc, wsplitAux (A ++ l) acc = wsplitAux l (A.reverse ++ acc) := by
  induction A with
  | nil => intro l acc; simp
  | cons a A' ih =>
    intro l acc
    have ha : isWSChar a = false := h a (by simp)
    have ih' := ih (fun c hc => h c (by simp [hc])) l (a :: acc)
    simp only [List.cons_append, wsplitAux, ha, Bool.false_eq_true,
      if_false, List.append_eq]
    rw [ih']
    simp

theorem wsplit_single {A : List Char} (hne : A ≠ [])
    (h : ∀ c ∈ A, isWSChar c = false) : wsplit A = [A] := by
  have := wsplitAux_token h [] []
  simp only [List.append_nil] at this
  rw [wsplit, this]
  simp [wsplitAux, List.isEmpty_iff, hne]

theorem wsplit_pair {A B : List Char} (hA : A ≠ []) (hB : B ≠ [])
    (h1 : ∀ c ∈ A, isWSChar c = false) (h2 : ∀ c ∈ B, isWSChar c = false) :
    wsplit (A ++ ' ' :: B) = [A, B] := by
  rw [wsplit, wsplitAux_token h1]
  simp only [wsplitAux, List.append_nil]
  rw [if_pos (by rfl)]
  have hrev : A.reverse.isEmpty = false := by
    simp [List.isEmpty_iff, hA]
  rw [if_neg (by simp [hrev])]
  have := wsplitAux_token h2 [] []
  simp only [List.append_nil] at this
  rw [this]
  simp [wsplitAux, List.isEmpty_iff, hB]

theorem digitsToNat_ne_special {l : List Char}
    (h : ∀ c ∈ l, c.isDigit = true) :
    l ≠ "inf".toList ∧ l ≠ "infinity".toList ∧ l ≠ "nan".toList := by
  refine ⟨?_, ?_, ?_⟩ <;> intro he
  · have := h 'i' (by rw [he]; decide)
    simp at this
  · have := h 'i' (by rw [he]; decide)
    simp at this
  · have := h 'n' (by rw [he]; decide)
    simp at this

theorem digit_ne_sign {c : Char} (h : c.isDigit = true) :
    c ≠ '+' ∧ c ≠ '-' := by
  constructor <;> intro he <;> rw [he] at h <;> simp at h

theorem parseFloatBody_digits {l : List Char} (hne : l ≠ [])
    (h : ∀ c ∈ l, c.isDigit = true) :
    parseFloatBody l = some (digitsToNat l : ℚ) := by
  have ht : l.takeWhile Char.isDigit = l := List.takeWhile_eq_self_iff.mpr h
  have hd : l.dropWhile Char.isDigit = [] := List.dropWhile_eq_nil_iff.mpr
    (fun x hx => h x hx)
  simp [parseFloatBody, ht, hd, List.isEmpty_iff, hne, digitsToNat]

theorem pyFloat_digits {l : List Char} (hne : l ≠ [])
    (h : ∀ c ∈ l, c.isDigit = true) :
    pyFloat l = some (.finite (digitsToNat l)) := by
  obtain ⟨c, rest, rfl⟩ := List.exists_cons_of_ne_nil hne
  have hstrip : pyStrip (c :: rest) = c :: rest := pyStrip_all_digits h
  have hc := digit_ne_sign (h c (by simp))
  have hlow : lowerStr (c :: rest) = c :: rest := lowerStr_digits h
  have hspec := digitsToNat_ne_special h
  simp only [pyFloat, hstrip, List.head?_cons, Option.some.injEq,
    hc.1, hc.2, or_self, if_false, hlow, decide_eq_true_eq]
  rw [if_neg (by rintro (he | he); exacts [hspec.1 he, hspec.2.1 he])]
  rw [if_neg (fun he => hspec.2.2 he)]
  rw [parseFloatBody_digits hne h]
  simp [hc.2]

theorem pyInt_digits {l : List Char} (hne : l ≠ [])
    (h : ∀ c ∈ l, c.isDigit = true) :
    pyInt l = some (digitsToNat l : ℤ) := by
  obtain ⟨c, rest, rfl⟩ := List.exists_cons_of_ne_nil hne
  have hstrip : pyStrip (c :: rest) = c :: rest := pyStrip_all_digits h
  have hc := digit_ne_sign (h c (by simp))
  have hpd : pyIsDigit (c :: rest) = true := by
    simp only [pyIsDigit, List.isEmpty_cons, Bool.not_false,
      Bool.true_and, List.all_eq_true]
    exact fun x hx => h x hx
  simp only [pyInt, hstrip, List.head?_cons]
  rw [if_neg (by simp [hc.1]), if_neg (by simp [hc.2]), if_pos hpd]

theorem digit_ne_x {c : Char} (h : c.isDigit = true) : c ≠ 'x' := by
  intro he; rw [he] at h; simp at h

theorem orZero_addQ_finite (q f : ℚ) :
    (orZeroFloat (some (.finite q))).addQ f = .finite (q + f) := by
  by_cases hq : q = 0
  · simp [orZeroFloat, PyFloat.truthy, hq, PyFloat.addQ]
  · simp [orZeroFloat, PyFloat.truthy, hq, PyFloat.addQ]

/-- `parse_size` on a well-formed `"<whole> <fraction> x <gauge>"` string:
the length is the whole part plus the fraction-table value (`0` for an
unrecognised fraction) and the gauge is the trailing integer. -/
theorem famousParseSize_generic (W F G : List Char)
    (hWne : W ≠ []) (hGne : G ≠ [])
    (hW : ∀ c ∈ W, c.isDigit = true) (hG : ∀ c ∈ G, c.isDigit = true)
    (hF : ∀ c ∈ F, isWSChar c = false ∧ c ≠ 'x')
    (hFlast : ∃ L b, F = L ++ [b] ∧ b.isDigit = true) :
    famousParseSize (W ++ [' '] ++ F ++ [' ', 'x', ' '] ++ G) =
      (some (.finite ((digitsToNat W : ℚ) + famousFracMap F)),
       some (digitsToNat G : ℤ)) := by
  obtain ⟨w, W', rfl⟩ := List.exists_cons_of_ne_nil hWne
  obtain ⟨L, b, rfl, hb⟩ := hFlast
  have hGlast : ∃ Lg bg, G = Lg ++ [bg] ∧ bg.isDigit = true := by
    rcases List.eq_nil_or_concat G with h | ⟨Lg, bg, h⟩
    · exact absurd h hGne
    · refine ⟨Lg, bg, by simpa [List.concat_eq_append] using h, ?_⟩
      exact hG bg (by rw [h]; simp)
  obtain ⟨Lg, bg, rfl, hbg⟩ := hGlast
  have hw : w.isDigit = true := hW w (by simp)
  set A : List Char := (w :: W') ++ [' '] ++ (L ++ [b]) ++ [' '] with hA
  set B : List Char := ' ' :: (Lg ++ [bg]) with hB
  have hshape : (w :: W') ++ [' '] ++ (L ++ [b]) ++ [' ', 'x', ' '] ++
      (Lg ++ [bg]) = A ++ 'x' :: B := by
    simp [hA, hB]
  rw [hshape]
  have hnotempty : (A ++ 'x' :: B).isEmpty = false := by simp [hA]
  have hcontains : containsSub "x".toList (A ++ 'x' :: B) = true :=
    containsSub_single A B
  have hconsS : A ++ 'x' :: B = w :: (W' ++ [' '] ++ (L ++ [b]) ++ [' '] ++
      'x' :: B) := by simp [hA]
  have hrevS : (A ++ 'x' :: B).reverse =
      bg :: (Lg.reverse ++ ' ' :: 'x' :: A.reverse) := by
    simp [hA, hB]
  have hstripS : pyStrip (A ++ 'x' :: B) = A ++ 'x' :: B := by
    apply pyStrip_of_parts
    · rw [hconsS, dropWhile_cons_false (digit_not_ws hw), ← hconsS]
    · rw [hrevS, dropWhile_cons_false (digit_not_ws hbg), ← hrevS]
  have hsplit : splitFirst 'x' (A ++ 'x' :: B) = some (A, B) := by
    apply splitFirst_eq
    intro x hx
    simp only [hA, List.mem_append, List.mem_singleton] at hx
    rcases hx with ((hx | hx) | hx | hx) | hx
    · exact digit_ne_x (hW x hx)
    · rw [hx]; decide
    · exact (hF x (List.mem_append_left _ hx)).2
    · exact hx ▸ (hF b (by simp)).2
    · rw [hx]; decide
  have hstripA : pyStrip A = (w :: W') ++ ' ' :: (L ++ [b]) := by
    simp only [pyStrip]
    have h1 : A.dropWhile isWSChar = A := by
      have : A = w :: (W' ++ [' '] ++ (L ++ [b]) ++ [' ']) := by simp [hA]
      rw [this, dropWhile_cons_false (digit_not_ws hw), ← this]
    rw [h1]
    have h2 : A.reverse = ' ' :: (b :: (L.reverse ++ ' ' :: (W'.reverse ++
        [w]))) := by simp [hA]
    rw [h2]
    have h3 : (' ' :: (b :: (L.reverse ++ ' ' :: (W'.reverse ++
        [w])))).dropWhile isWSChar = b :: (L.reverse ++ ' ' :: (W'.reverse ++
        [w])) := by
      rw [List.dropWhile_cons]
      rw [if_pos (by decide)]
      exact dropWhile_cons_false (digit_not_ws hb)
    rw [h3]
    simp
  have hstripB : pyStrip B = Lg ++ [bg] := by
    simp only [pyStrip, hB]
    have h1 : (' ' :: (Lg ++ [bg])).dropWhile isWSChar = Lg ++ [bg] := by
      rw [List.dropWhile_cons, if_pos (by decide)]
      exact dropWhile_eq_self_of_forall (fun c hc => digit_not_ws (hG c hc))
    rw [h1]
    have h2 : (Lg ++ [bg]).reverse.dropWhile isWSChar =
        (Lg ++ [bg]).reverse := by
      apply dropWhile_eq_self_of_forall
      intro c hc
      exact digit_not_ws (hG c (List.mem_reverse.mp hc))
    rw [h2, List.reverse_reverse]
  have hws : wsplit ((w :: W') ++ ' ' :: (L ++ [b])) = [w :: W', L ++ [b]] := by
    apply wsplit_pair (by simp) (by simp)
    · exact fun c hc => digit_not_ws (hW c hc)
    · exact fun c hc => (hF c hc).1
  have hfW : pyFloat (w :: W') = some (.finite (digitsToNat (w :: W'))) :=
    pyFloat_digits (by simp) hW
  have hiG : pyInt (Lg ++ [bg]) = some (digitsToNat (Lg ++ [bg]) : ℤ) :=
    pyInt_digits hGne hG
  simp only [famousParseSize, hnotempty, hcontains, Bool.not_true,
    Bool.or_false, Bool.false_eq_true, if_false, hstripS, hsplit,
    toFloatLength, hstripA, hstripB, hws, hfW, hiG,
    orZero_addQ_finite]

theorem findDecimalNumsAux_no_digit : ∀ (fuel : ℕ) {l : List Char},
    (∀ c ∈ l, c.isDigit = false) → findDecimalNumsAux fuel l = [] := by
  intro fuel
  induction fuel with
  | zero => intro l _; cases l <;> rfl
  | succ n ih =>
    intro l h
    cases l with
    | nil => rfl
    | cons c rest =>
      simp only [findDecimalNumsAux, h c (by simp), Bool.false_eq_true,
        if_false]
      exact ih (fun x hx => h x (by simp [hx]))

theorem findDecimalNums_no_digit {l : List Char}
    (h : ∀ c ∈ l, c.isDigit = false) : findDecimalNums l = [] :=
  findDecimalNumsAux_no_digit l.length h

theorem famousProcessItems_emits (items : List α) (ok : α → Bool) :
    (famousProcessItems items ok).1 = items.filter ok := by
  induction items with
  | nil => rfl
  | cons i rest ih =>
    simp only [famousProcessItems, List.filter_cons]
    cases hok : ok i <;> simp [hok, ih]

theorem famousProcessItems_fails (items : List α) (ok : α → Bool) :
    (famousProcessItems items ok).2 =
      (items.filter (fun i => !ok i)).length := by
  induction items with
  | nil => rfl
  | cons i rest ih =>
    simp only [famousProcessItems, List.filter_cons]
    cases hok : ok i <;> simp [hok, ih]

theorem famousRunPages_emits (pages : List (List α)) (ok : α → Bool) :
    (famousRunPages pages ok).1 = pages.flatten.filter ok := by
  induction pages with
  | nil => rfl
  | cons pg rest ih =>
    simp only [famousRunPages, List.flatten_cons, List.filter_append,
      famousProcessItems_emits, ih]

theorem atlanticProcessItems_emits (items : List α) (ok : α → Bool) :
    (atlanticProcessItems items ok).1 =
      items.map (fun i => (i, ok i)) := by
  induction items with
  | nil => rfl
  | cons i rest ih =>
    simp only [atlanticProcessItems, List.map_cons]
    cases hok : ok i <;> simp [hok, ih]

theorem jrCollect_full_pages {sz : ℕ} :
    ∀ {front rest : List (List α)},
    (∀ p ∈ front, p ≠ [] ∧ p.length = sz) →
    jrCollect sz (front ++ [] :: rest) = front.flatten := by
  intro front
  induction front with
  | nil => intro rest _; simp [jrCollect]
  | cons p front' ih =>
    intro rest h
    obtain ⟨hp, hlen⟩ := h p (by simp)
    simp only [List.cons_append, jrCollect, List.isEmpty_iff, hp,
      if_false, hlen, lt_irrefl, List.flatten_cons, List.append_eq]
    rw [ih (fun q hq => h q (by simp [hq]))]

theorem atlanticCategory_full_pages :
    ∀ {front : List (List α)} {rest : List (Option (List α))},
    (∀ p ∈ front, p ≠ []) →
    atlanticCategory ((front.map some) ++ some [] :: rest) =
      (front.flatten, true) := by
  intro front
  induction front with
  | nil => intro rest _; simp [atlanticCategory]
  | cons p front' ih =>
    intro rest h
    have hp : p ≠ [] := h p (by simp)
    simp only [List.map_cons, List.cons_append, atlanticCategory,
      List.isEmpty_iff, hp, if_false, List.flatten_cons, List.append_eq]
    rw [ih (fun q hq => h q (by simp [hq]))]

theorem jrCollect_short_page {sz : ℕ} :
    ∀ {front : List (List α)} {p : List α} {rest : List (List α)},
    (∀ q ∈ front, q ≠ [] ∧ q.length = sz) →
    p ≠ [] → p.length < sz →
    jrCollect sz (front ++ p :: rest) = front.flatten ++ p := by
  intro front
  induction front with
  | nil =>
    intro p rest _ hp hlen
    simp [jrCollect, List.isEmpty_iff, hp, hlen]
  | cons q front' ih =>
    intro p rest h hp hlen
    obtain ⟨hq, hqlen⟩ := h q (by simp)
    simp only [List.cons_append, jrCollect, List.isEmpty_iff, hq,
      if_false, hqlen, lt_irrefl, List.flatten_cons, List.append_eq]
    rw [ih (fun r hr => h r (by simp [hr])) hp hlen]
    simp

theorem gothamRun_append (a b : List (List (Option (List α)))) :
    gothamRun (a ++ b) =
      ((gothamRun a).1 ++ (gothamRun b).1,
       (gothamRun a).2 + (gothamRun b).2) := by
  simp [gothamRun]

/-! ## Claim theorems -/

/-- Claim C3, counterexample: `safe_decimal` / `safe_float` are plain
`float()` conversions, so the strings `"nan"`, `"-5"` and `"inf"` come
back as NaN, a negative number, and infinity rather than absent,
contradicting the claim that any input not denoting a valid
non-negative number yields absent. -/
theorem C3_counterexample :
    safeDecimal (some "nan".toList) = some PyFloat.nan ∧
    safeDecimal (some "-5".toList) = some (PyFloat.finite (-5)) ∧
    safeFloat "inf".toList = some PyFloat.inf ∧
    ((-5 : ℚ) < 0) := by
  refine ⟨by decide, ?_, by decide, by norm_num⟩
  simp +decide [safeDecimal, pyFloat, pyStrip, lowerStr, parseFloatBody,
    digitsToNat, isWSChar, pyIsDigit]

/-- Claim C3 as amended: the numeric coercions return the value Python
`float()` yields whenever conversion succeeds and absent exactly when it
fails; a string of decimal digits yields that non-negative number, but
the functions do not filter NaN, infinity, or negative values —
`"nan"` and `"-5"` are returned as parsed rather than made absent. -/
theorem C3_theorem :
    (∀ l : List Char, l ≠ [] → (∀ c ∈ l, c.isDigit = true) →
      safeDecimal (some l) = some (PyFloat.finite (digitsToNat l)) ∧
      (0 : ℚ) ≤ (digitsToNat l : ℚ)) ∧
    safeDecimal none = none ∧
    safeDecimal (some "abc".toList) = none ∧
    safeDecimal (some "".toList) = none ∧
    safeDecimal (some "nan".toList) = some PyFloat.nan ∧
    safeDecimal (some "-5".toList) = some (PyFloat.finite (-5)) := by
  refine ⟨?_, by decide, by decide, by decide, by decide, ?_⟩
  · intro l h1 h2
    refine ⟨?_, by positivity⟩
    simp [safeDecimal, pyFloat_digits h1 h2]
  · simp +decide [safeDecimal, pyFloat, pyStrip, lowerStr, parseFloatBody,
      digitsToNat, isWSChar, pyIsDigit]

/-- Claim C3 witness: the coercion guarantee at the concrete digit
string `"42"`. -/
theorem C3_witness :
    safeDecimal (some "42".toList) =
      some (PyFloat.finite (digitsToNat "42".toList)) ∧
    (0 : ℚ) ≤ (digitsToNat "42".toList : ℚ) :=
  C3_theorem.1 "42".toList (by decide) (by decide)

/-- Claim C4, counterexample: the price regex `\d+\.\d+` of
`parse_price_range` requires at least one decimal digit, not exactly
two, so `"$8.5"` parses to `8.5` and `"$1.234"` to `1.234` where the
claim demands absent. -/
theorem C4_counterexample :
    parsePriceRange (some "$8.5".toList) = some (PyFloat.finite (17/2)) ∧
    parsePriceRange (some "$1.234".toList) =
      some (PyFloat.finite (617/500)) ∧
    some (PyFloat.finite (17/2)) ≠ (none : Option PyFloat) := by
  refine ⟨?_, ?_, by simp⟩ <;>
  · simp +decide [parsePriceRange, findDecimalNums, findDecimalNumsAux, twoPartNumAt,
      safeFloat, pyFloat, pyStrip, lowerStr, parseFloatBody, digitsToNat,
      isWSChar, pyIsDigit]
    norm_num

/-- Claim C4 as amended: `parse_price_range` (Holt's and Atlantic)
matches numeric substrings with at least one digit on each side of the
decimal point after stripping commas and returns the first such
substring; text with no digits at all yields absent; two decimal places
are not required.  Gotham's category-card regex is the one that demands
exactly two decimals, and it additionally requires a dollar sign. -/
theorem C4_theorem :
    parsePriceRange (some "$8.53 - $10.89".toList) =
      some (PyFloat.finite (853/100)) ∧
    parsePriceRange (some "Contact for price".toList) = none ∧
    parsePriceRange (some "$8.5".toList) = some (PyFloat.finite (17/2)) ∧
    parsePriceRange none = none ∧
    (∀ t : List Char, (∀ c ∈ t, c.isDigit = false) →
      parsePriceRange (some t) = none) ∧
    gothamLowPrice "$8.53 - $10.89".toList =
      some (PyFloat.finite (853/100)) ∧
    gothamLowPrice "8.53".toList = none ∧
    gothamLowPrice "$8.5".toList = none := by
  refine ⟨?_, by decide, ?_, by decide, ?_, ?_, by decide, by decide⟩
  · simp +decide [parsePriceRange, findDecimalNums, findDecimalNumsAux, twoPartNumAt,
      safeFloat, pyFloat, pyStrip, lowerStr, parseFloatBody, digitsToNat,
      isWSChar, pyIsDigit]
    norm_num
  · simp +decide [parsePriceRange, findDecimalNums, findDecimalNumsAux, twoPartNumAt,
      safeFloat, pyFloat, pyStrip, lowerStr, parseFloatBody, digitsToNat,
      isWSChar, pyIsDigit]
    norm_num
  · intro t h
    cases ht : t.isEmpty with
    | true =>
      simp only [parsePriceRange, ht, if_true]
    | false =>
      have hnod : ∀ c ∈ t.filter (fun c => c ≠ ','), c.isDigit = false :=
        fun c hc => h c (List.mem_of_mem_filter hc)
      simp only [parsePriceRange, ht, Bool.false_eq_true, if_false,
        findDecimalNums_no_digit hnod]
  · simp +decide [gothamLowPrice, gothamFindPrices, gothamFindPricesAux, gothamPriceAt,
      pyFloat, pyStrip, lowerStr, parseFloatBody, digitsToNat,
      isWSChar, pyIsDigit]
    norm_num

/-- Claim C4 witness: the no-numeric-content clause at the concrete
input `"Contact for price"`. -/
theorem C4_witness :
    parsePriceRange (some "Contact for price".toList) = none :=
  (C4_theorem.2.2.2.2.1) "Contact for price".toList (by decide)


/-- Claim C5: the wrapper decomposer matches vocabularies
case-insensitively with entries tried longest-first (any text containing
"colorado maduro" in any case gets color "Colorado Maduro", not
"Maduro"), and on `"Connecticut Broadleaf Maduro (USA)"` yields color
"Maduro", leaf "Connecticut Broadleaf", origin "USA"; the empty string
yields all three absent. -/
theorem C5_theorem :
    (∀ s : List Char,
      containsSub "colorado maduro".toList (lowerStr s) = true →
      (smartParseWrapper s).1 = some ("Colorado Maduro".toList)) ∧
    smartParseWrapper "Connecticut Broadleaf Maduro (USA)".toList =
      (some "Maduro".toList, some "Connecticut Broadleaf".toList,
       some "USA".toList) ∧
    smartParseWrapper "".toList = (none, none, none) := by
  refine ⟨?_, by decide, by decide⟩
  intro s h
  cases s with
  | nil => exact absurd h (by decide)
  | cons c rest =>
    simp only [smartParseWrapper, List.isEmpty_cons, Bool.false_eq_true,
      if_false]
    have hsort : sortLenDesc WRAPPER_COLORS = "colorado maduro".toList ::
      ["colorado claro".toList, "double claro".toList, "sun grown".toList,
       "sungrown".toList, "colorado".toList, "natural".toList,
       "maduro".toList, "oscuro".toList, "claro".toList, "ems".toList] := by
      decide
    have hfind : List.find? (fun v => containsSub v (lowerStr (c :: rest)))
        ("colorado maduro".toList ::
          ["colorado claro".toList, "double claro".toList,
           "sun grown".toList, "sungrown".toList, "colorado".toList,
           "natural".toList, "maduro".toList, "oscuro".toList,
           "claro".toList, "ems".toList]) =
        some ("colorado maduro".toList) :=
      List.find?_cons_of_pos _ h
    rw [hsort, hfind]
    decide

/-- Claim C5 witness: the longest-first clause at the concrete input
"Colorado Maduro wrapper". -/
theorem C5_witness :
    (smartParseWrapper "Colorado Maduro wrapper".toList).1 =
      some ("Colorado Maduro".toList) :=
  C5_theorem.1 "Colorado Maduro wrapper".toList (by decide)

/-- Claim C6, counterexample: the `or`-based numeric reconciliation of
`cigarbid_scraper.py` line 429 skips a present first candidate whose
value is `0`, returning the later candidate instead of the first
present one. -/
theorem C6_counterexample :
    pyOrQ (some 0) (some 5) = some 5 ∧
    (some (0 : ℚ)) ≠ (some (5 : ℚ)) := by
  constructor
  · simp [pyOrQ]
  · simp

/-- Claim C6 as amended: reconciliation returns the first truthy
candidate.  Absent entries are skipped and values are never merged; for
`None`-or-truthy candidates (all the string fields, whose candidates
are never empty) and for the `is not None` reconciliations this is
exactly the first present candidate, but the `or`-based numeric
reconciliations skip a present zero. -/
theorem C6_theorem :
    (∀ b : Option ℚ, pyOrQ none b = b) ∧
    (∀ (x : ℚ) (b : Option ℚ), x ≠ 0 → pyOrQ (some x) b = some x) ∧
    (∀ d l : Option ℚ, d ≠ none → noneOr d l = d) ∧
    (∀ l : Option ℚ, noneOr none l = l) ∧
    (∀ (s : List Char) (b : Option (List Char)), s ≠ [] →
      pyOrStr (some s) b = some s) ∧
    pyOrStr none (some "Maduro".toList) = some "Maduro".toList ∧
    pyOrStr (some "Natural".toList) (some "Maduro".toList) =
      some "Natural".toList := by
  refine ⟨fun b => rfl, ?_, ?_, fun l => rfl, ?_, by decide, by decide⟩
  · intro x b hx
    simp [pyOrQ, hx]
  · intro d l hd
    cases d with
    | none => exact absurd rfl hd
    | some x => rfl
  · intro s b hs
    simp [pyOrStr, List.isEmpty_iff, hs]

/-- Claim C6 witness: the amended reconciliation rules at concrete
candidates. -/
theorem C6_witness :
    pyOrQ (some 3) (some 7) = some 3 ∧
    noneOr (some 4) (some 9) = some 4 ∧
    pyOrStr (some "Natural".toList) none = some "Natural".toList :=
  ⟨C6_theorem.2.1 3 (some 7) (by norm_num),
   C6_theorem.2.2.1 (some 4) (some 9) (by simp),
   C6_theorem.2.2.2.2.1 "Natural".toList none (by decide)⟩

/-- Claim C7: packaging quantity routing sends the extracted number to
`bundle_qty` exactly when the label contains "bundle", to `box_qty`
exactly when it contains "box", and leaves both absent otherwise:
"Box of 20" gives box 20, "Bundle of 10" gives bundle 10, "Pack of 5"
gives neither.  The pair is `(bundle_qty, box_qty)`. -/
theorem C7_theorem :
    routeQuantityPackaging (some "Box of 20".toList) = (none, some 20) ∧
    routeQuantityPackaging (some "Bundle of 10".toList) =
      (some 10, none) ∧
    routeQuantityPackaging (some "Pack of 5".toList) = (none, none) ∧
    routeQuantityPackaging none = (none, none) ∧
    (∀ t : List Char,
      ((routeQuantityPackaging (some t)).1 ≠ none →
        containsSub "bundle".toList (lowerStr t) = true) ∧
      ((routeQuantityPackaging (some t)).2 ≠ none →
        containsSub "box".toList (lowerStr t) = true)) := by
  refine ⟨by decide, by decide, by decide, rfl, ?_⟩
  intro t
  constructor
  · intro h
    by_contra hcon
    simp only [Bool.not_eq_true] at hcon
    have hc : containsSub ['b', 'u', 'n', 'd', 'l', 'e'] (lowerStr t) =
        false := hcon
    simp [routeQuantityPackaging, hc] at h
  · intro h
    by_contra hcon
    simp only [Bool.not_eq_true] at hcon
    have hc : containsSub ['b', 'o', 'x'] (lowerStr t) = false := hcon
    simp [routeQuantityPackaging, hc] at h

/-- Claim C7 witness: the routing-implies-keyword clauses at
"Bundle of 10" and "Box of 20". -/
theorem C7_witness :
    containsSub "bundle".toList (lowerStr "Bundle of 10".toList) = true ∧
    containsSub "box".toList (lowerStr "Box of 20".toList) = true :=
  ⟨(C7_theorem.2.2.2.2 "Bundle of 10".toList).1 (by decide),
   (C7_theorem.2.2.2.2 "Box of 20".toList).2 (by decide)⟩

/-- Claim C10, counterexample: an input containing "usa" does not
always yield origin "USA" — the longest-first loop matches "nicaragua"
before "usa" in "Nicaragua USA", so the origin is "Nicaragua". -/
theorem C10_counterexample :
    (smartParseWrapper "Nicaragua USA".toList).2.2 =
      some ("Nicaragua".toList) ∧
    containsSub "usa".toList (lowerStr "Nicaragua USA".toList) = true ∧
    some ("Nicaragua".toList) ≠ some ("USA".toList) := by
  refine ⟨by decide, by decide, by decide⟩

/-- Claim C10 as amended: the wrapper decomposer canonicalises per the
matched (longest-first, first-hit) vocabulary entry: "usa" and "united
states" map to "USA", "dominican" to "Dominican Republic", every other
entry to its title-cased form, and the color is the matched entry
title-cased — so both outputs always come from a fixed canonical set or
are absent. -/
theorem C10_theorem :
    (∀ s : List Char,
      (smartParseWrapper s).2.2 = none ∨
      (smartParseWrapper s).2.2 ∈
        (["USA", "Dominican Republic", "Honduras", "Nicaragua", "Mexico",
          "Ecuador", "Brazil", "Cameroon", "Panama",
          "Costa Rica"].map (fun x : String => some x.toList))) ∧
    (∀ s : List Char,
      (smartParseWrapper s).1 = none ∨
      (smartParseWrapper s).1 ∈
        (["Colorado Maduro", "Colorado Claro", "Double Claro",
          "Sun Grown", "Sungrown", "Colorado", "Natural", "Maduro",
          "Oscuro", "Claro", "Ems"].map (fun x : String => some x.toList))) := by
  constructor
  · intro s
    cases s with
    | nil => left; rfl
    | cons c rest =>
      cases hf : (sortLenDesc WRAPPER_ORIGINS).find?
          (fun o => containsSub o (lowerStr (c :: rest))) with
      | none =>
        left
        simp only [smartParseWrapper, List.isEmpty_cons, Bool.false_eq_true,
          if_false, hf, Option.map_none]
        simp
      | some o =>
        right
        have hmem := List.mem_of_find?_eq_some hf
        have hsort : sortLenDesc WRAPPER_ORIGINS =
          ["dominican republic".toList, "united states".toList,
           "costa rica".toList, "nicaragua".toList, "dominican".toList,
           "honduras".toList, "cameroon".toList, "ecuador".toList,
           "mexico".toList, "brazil".toList, "panama".toList,
           "usa".toList] := by decide
        rw [hsort] at hmem
        simp only [List.mem_cons, List.not_mem_nil, or_false] at hmem
        simp only [smartParseWrapper, List.isEmpty_cons, Bool.false_eq_true,
          if_false, hf, Option.map_some]
        rcases hmem with rfl | rfl | rfl | rfl | rfl | rfl | rfl | rfl
          | rfl | rfl | rfl | rfl <;> decide
  · intro s
    cases s with
    | nil => left; rfl
    | cons c rest =>
      cases hf : (sortLenDesc WRAPPER_COLORS).find?
          (fun v => containsSub v (lowerStr (c :: rest))) with
      | none =>
        left
        simp only [smartParseWrapper, List.isEmpty_cons, Bool.false_eq_true,
          if_false, hf, Option.map_none]
        simp
      | some v =>
        right
        have hmem := List.mem_of_find?_eq_some hf
        have hsort : sortLenDesc WRAPPER_COLORS =
          ["colorado maduro".toList, "colorado claro".toList,
           "double claro".toList, "sun grown".toList, "sungrown".toList,
           "colorado".toList, "natural".toList, "maduro".toList,
           "oscuro".toList, "claro".toList, "ems".toList] := by decide
        rw [hsort] at hmem
        simp only [List.mem_cons, List.not_mem_nil, or_false] at hmem
        simp only [smartParseWrapper, List.isEmpty_cons, Bool.false_eq_true,
          if_false, hf, Option.map_some]
        rcases hmem with rfl | rfl | rfl | rfl | rfl | rfl | rfl | rfl
          | rfl | rfl | rfl <;> decide


/-- Claim C1, counterexample: `parse_size` of famous_smoke_scraper.py
knows only the fractions 1/4, 1/2 and 3/4, so `"5 1/8 x 52"` parses to
`(5.0, 52)` and not to the claimed `(5.125, 52)` (`5.125 = 41/8`). -/
theorem C1_counterexample :
    famousParseSize "5 1/8 x 52".toList =
      (some (PyFloat.finite 5), some 52) ∧
    PyFloat.finite 5 ≠ PyFloat.finite (41/8) := by
  constructor
  · simp +decide [famousParseSize, toFloatLength, pyStrip, splitFirst,
      wsplit, wsplitAux, containsSub, pyFloat, pyInt, pyIsDigit,
      parseFloatBody, digitsToNat, lowerStr, orZeroFloat, famousFracMap,
      PyFloat.addQ, PyFloat.truthy, isWSChar]
  · intro h
    rw [PyFloat.finite.injEq] at h
    norm_num at h

/-- Claim C1 as amended: for `"<whole> <fraction> x <gauge>"` size
strings, famous_smoke's `parse_size` returns the whole part plus the
fraction's decimal value for the fractions 1/4, 1/2 and 3/4, and the
whole part plus 0 for the remaining fractions of the claimed set (1/8,
3/8, 5/8, 7/8 are not in its table), with the ring gauge taken from the
second number; `"6x54"` gives `(6.0, 54)` and `"N/A"` gives absent.
Gotham's spec-table parser instead evaluates a mixed fraction `"W N/D"`
as `(WN)/D`, so `"5 1/8 x 52"` yields `51/8 = 6.375` there. -/
theorem C1_theorem :
    (∀ W F G : List Char, W ≠ [] → G ≠ [] →
      (∀ c ∈ W, c.isDigit = true) → (∀ c ∈ G, c.isDigit = true) →
      F ∈ ["1/8".toList, "1/4".toList, "3/8".toList, "1/2".toList,
           "5/8".toList, "3/4".toList, "7/8".toList] →
      famousParseSize (W ++ [' '] ++ F ++ [' ', 'x', ' '] ++ G) =
        (some (.finite ((digitsToNat W : ℚ) + famousFracMap F)),
         some (digitsToNat G : ℤ))) ∧
    famousFracMap "1/4".toList = 1/4 ∧
    famousFracMap "1/2".toList = 1/2 ∧
    famousFracMap "3/4".toList = 3/4 ∧
    famousFracMap "1/8".toList = 0 ∧
    famousFracMap "3/8".toList = 0 ∧
    famousFracMap "5/8".toList = 0 ∧
    famousFracMap "7/8".toList = 0 ∧
    famousParseSize "6x54".toList = (some (.finite 6), some 54) ∧
    famousParseSize "N/A".toList = (none, none) ∧
    gothamSizeLength "5 1/8 x 52".toList = some (51/8) ∧
    gothamRingGauge "5 1/8 x 52".toList = some 52 := by
  refine ⟨?_, ?_, ?_, ?_, by decide, by decide, by decide, by decide,
    ?_, by decide, ?_, by decide⟩
  · intro W F G hWne hGne hW hG hmem
    simp only [List.mem_cons, List.not_mem_nil, or_false] at hmem
    rcases hmem with rfl | rfl | rfl | rfl | rfl | rfl | rfl
    · exact famousParseSize_generic W _ G hWne hGne hW hG (by decide)
        ⟨"1/".toList, '8', rfl, by decide⟩
    · exact famousParseSize_generic W _ G hWne hGne hW hG (by decide)
        ⟨"1/".toList, '4', rfl, by decide⟩
    · exact famousParseSize_generic W _ G hWne hGne hW hG (by decide)
        ⟨"3/".toList, '8', rfl, by decide⟩
    · exact famousParseSize_generic W _ G hWne hGne hW hG (by decide)
        ⟨"1/".toList, '2', rfl, by decide⟩
    · exact famousParseSize_generic W _ G hWne hGne hW hG (by decide)
        ⟨"5/".toList, '8', rfl, by decide⟩
    · exact famousParseSize_generic W _ G hWne hGne hW hG (by decide)
        ⟨"3/".toList, '4', rfl, by decide⟩
    · exact famousParseSize_generic W _ G hWne hGne hW hG (by decide)
        ⟨"7/".toList, '8', rfl, by decide⟩
  · simp [famousFracMap]
  · simp +decide [famousFracMap]
  · simp +decide [famousFracMap]
  · simp +decide [famousParseSize, toFloatLength, pyStrip, splitFirst,
      wsplit, wsplitAux, containsSub, pyFloat, pyInt, pyIsDigit,
      parseFloatBody, digitsToNat, lowerStr, orZeroFloat, famousFracMap,
      PyFloat.addQ, PyFloat.truthy, isWSChar]
  · simp +decide [gothamSizeLength, gothamLenSearch, gothamLenTail,
      splitFirst, pyFloat, pyStrip, lowerStr, parseFloatBody,
      digitsToNat, pyIsDigit, isWSChar]

/-- Claim C1 witness: the generic clause at the concrete size string
`"5 1/2 x 52"`, whose fraction is in the handled set. -/
theorem C1_witness :
    famousParseSize ("5".toList ++ [' '] ++ "1/2".toList ++
        [' ', 'x', ' '] ++ "52".toList) =
      (some (.finite ((digitsToNat "5".toList : ℚ) +
        famousFracMap "1/2".toList)),
       some (digitsToNat "52".toList : ℤ)) :=
  C1_theorem.1 "5".toList "1/2".toList "52".toList (by decide) (by decide)
    (by decide) (by decide) (by decide)

/-- Claim C2, counterexample: in the Atlantic scraper a failing detail
fetch does not skip the item — `parse_pdp` returns an all-`None` dict
and the record is still emitted, so 10 items with item 5 failing yield
10 records (not the claimed 9), though exactly one failure is logged. -/
theorem C2_counterexample :
    (atlanticProcessItems [1, 2, 3, 4, 5, 6, 7, 8, 9, 10]
      (fun i => decide (i ≠ 5))).1.length = 10 ∧
    (atlanticProcessItems [1, 2, 3, 4, 5, 6, 7, 8, 9, 10]
      (fun i => decide (i ≠ 5))).2 = 1 ∧
    (10 : ℕ) ≠ 9 := by
  refine ⟨by decide, by decide, by decide⟩

/-- Claim C2 as amended: in the Famous Smoke scraper a failing item is
skipped and only logged — the emitted records are exactly the items
whose detail fetch succeeded, across all pages, so 10 items with item 5
failing yield 9 records and 1 logged failure; in the Atlantic scraper
the failure is still logged exactly once but the item yields a record
with all detail fields absent, so all 10 records are emitted. -/
theorem C2_theorem :
    (∀ (items : List ℕ) (ok : ℕ → Bool),
      (famousProcessItems items ok).1 = items.filter ok ∧
      (famousProcessItems items ok).2 =
        (items.filter (fun i => !ok i)).length) ∧
    (∀ (pages : List (List ℕ)) (ok : ℕ → Bool),
      (famousRunPages pages ok).1 = pages.flatten.filter ok) ∧
    (famousProcessItems [1, 2, 3, 4, 5, 6, 7, 8, 9, 10]
      (fun i => decide (i ≠ 5))).1 = [1, 2, 3, 4, 6, 7, 8, 9, 10] ∧
    (famousProcessItems [1, 2, 3, 4, 5, 6, 7, 8, 9, 10]
      (fun i => decide (i ≠ 5))).1.length = 9 ∧
    (famousProcessItems [1, 2, 3, 4, 5, 6, 7, 8, 9, 10]
      (fun i => decide (i ≠ 5))).2 = 1 ∧
    (atlanticProcessItems [1, 2, 3, 4, 5, 6, 7, 8, 9, 10]
      (fun i => decide (i ≠ 5))).1.length = 10 ∧
    (atlanticProcessItems [1, 2, 3, 4, 5, 6, 7, 8, 9, 10]
      (fun i => decide (i ≠ 5))).2 = 1 := by
  refine ⟨?_, ?_, by decide, by decide, by decide, by decide, by decide⟩
  · intro items ok
    exact ⟨famousProcessItems_emits items ok,
      famousProcessItems_fails items ok⟩
  · intro pages ok
    exact famousRunPages_emits pages ok

/-- Claim C8: pagination stops at the first empty page (or after a
short page), emitting exactly the items of the preceding pages, each
exactly once; with duplicate-free, pairwise-fresh pages the output has
no duplicates. -/
theorem C8_theorem :
    (∀ (sz : ℕ) (front rest : List (List ℕ)),
      (∀ p ∈ front, p ≠ [] ∧ p.length = sz) →
      jrCollect sz (front ++ [] :: rest) = front.flatten) ∧
    (∀ (sz : ℕ) (front rest : List (List ℕ)),
      (∀ p ∈ front, p ≠ [] ∧ p.length = sz) → front.flatten.Nodup →
      (jrCollect sz (front ++ [] :: rest)).Nodup) ∧
    (∀ (sz : ℕ) (front : List (List ℕ)) (p : List ℕ)
        (rest : List (List ℕ)),
      (∀ q ∈ front, q ≠ [] ∧ q.length = sz) → p ≠ [] → p.length < sz →
      jrCollect sz (front ++ p :: rest) = front.flatten ++ p) ∧
    (∀ (front : List (List ℕ)) (rest : List (Option (List ℕ))),
      (∀ p ∈ front, p ≠ []) →
      atlanticCategory ((front.map some) ++ some [] :: rest) =
        (front.flatten, true)) ∧
    jrCollect 3 [[1, 2, 3], [4, 5, 6], []] = [1, 2, 3, 4, 5, 6] ∧
    jrCollect 3 [[1, 2, 3], [4, 5, 6], [], [7, 8, 9]] =
      [1, 2, 3, 4, 5, 6] := by
  refine ⟨?_, ?_, ?_, ?_, by decide, by decide⟩
  · intro sz front rest h
    exact jrCollect_full_pages h
  · intro sz front rest h hnd
    rw [jrCollect_full_pages h]
    exact hnd
  · intro sz front p rest h hp hlen
    exact jrCollect_short_page h hp hlen
  · intro front rest h
    exact atlanticCategory_full_pages h

/-- Claim C8 witness: the termination clauses at a concrete two-page
script with page size 2 whose third page is empty. -/
theorem C8_witness :
    jrCollect 2 [[1, 2], [3, 4], [], [9, 9]] = [1, 2, 3, 4] ∧
    (jrCollect 2 [[1, 2], [3, 4], [], [9, 9]]).Nodup ∧
    atlanticCategory [some [1, 2], some [3, 4], some [], none] =
      ([1, 2, 3, 4], true) :=
  ⟨C8_theorem.1 2 [[1, 2], [3, 4]] [[9, 9]] (by decide),
   C8_theorem.2.1 2 [[1, 2], [3, 4]] [[9, 9]] (by decide) (by decide),
   C8_theorem.2.2.2.1 [[1, 2], [3, 4]] [none] (by decide)⟩

/-- Claim C9, counterexample: in the Atlantic scraper a listing fetch
failure is uncaught, so it aborts the whole run, not only the failing
category — with category 1 failing on page 1, category 2's item 7 is
never emitted even though traversing category 2 alone would emit it. -/
theorem C9_counterexample :
    atlanticRun [[none], [some [7], some []]] = (([] : List ℕ), false) ∧
    atlanticCategory [some [(7 : ℕ)], some []] = ([7], true) := by
  refine ⟨by decide, by decide⟩

/-- Claim C9 as amended: in the Gotham scraper a category listing-fetch
failure is caught inside that category's page loop, so every other
category still contributes exactly its own items; in the Atlantic
scraper the exception escapes and the run stops, dropping all later
categories. -/
theorem C9_theorem :
    (∀ (a b : List (List (Option (List ℕ))))
        (bad : List (Option (List ℕ))),
      (gothamRun (a ++ bad :: b)).1 =
        (gothamRun a).1 ++ (gothamCategory bad).1 ++ (gothamRun b).1) ∧
    (∀ (src : List (Option (List ℕ)))
        (srcs : List (List (Option (List ℕ)))) (e : List ℕ),
      atlanticCategory src = (e, false) →
      atlanticRun (src :: srcs) = (e, false)) ∧
    gothamRun [[none], [some [7], some []]] = ([7], 1) ∧
    atlanticRun [[none], [some [7], some []]] = (([] : List ℕ), false) := by
  refine ⟨?_, ?_, by decide, by decide⟩
  · intro a b bad
    simp [gothamRun]
  · intro src srcs e h
    simp [atlanticRun, h]

/-- Claim C9 witness: the Atlantic abort clause at a concrete failing
category. -/
theorem C9_witness :
    atlanticRun [[(none : Option (List ℕ))], [some [3], some []]] =
      ([], false) :=
  C9_theorem.2.1 [none] [[some [3], some []]] [] (by decide)

end Cigar
